import Mathlib

/-!
Verification development for the infographics repository: a donut/pie chart
generator (src/donuts.py, src/infographics/chart.py) and an SVG canvas
container (src/infographics/canvas.py, src/canvas.py).

The embedding keeps the structure of the Python source: exact numbers are
rationals, angles and coordinates are reals, and fallible Python operations
(division, list indexing, int parsing) run in the Except monad carrying the
Python exception name.
-/

/-- Cartesian point, from class Point in src/infographics/chart.py. -/
structure Point where
  x : ℝ
  y : ℝ
deriving Inhabited

/-- Label presentation options of one wedge: the dict read by
DonutStyle.generate through opts.get, with the defaults used there
(dx = 0, dy = 0, rotate = False). -/
structure WedgeOpts where
  dx : ℚ := 0
  dy : ℚ := 0
  rotate : Bool := false
deriving DecidableEq, Inhabited

/-- One dataset element (weight, label, options tuple) consumed by generate. -/
structure WedgeInput where
  weight : ℚ
  name : String
  opts : WedgeOpts
deriving DecidableEq, Inhabited

/-- Style record of DonutStyle.__init__ in src/donuts.py: the attributes
assigned before the keyword loop, with their default values.  The internal
attribute named underscore-size is called size here. -/
structure DonutStyle where
  size : ℚ := 1000
  border_size : ℚ := 1 / 100
  hole_size : ℚ := 3 / 10
  title_size : ℚ := 2 / 25
  label_size : ℚ := 2 / 25
  border_color : String := "white"
  hole_color : String := "silver"
  title_color : String := "black"
  label_color : String := "white"
  wedge_colors : List String :=
    ["red", "blue", "green", "orange", "teal", "brown", "magenta", "cyan"]
  init_angle : ℝ := -(Real.pi / 2)

/-- Default style: DonutStyle() constructed with no keyword arguments. -/
noncomputable def defaultDonutStyle : DonutStyle := {}

/-- Python int() applied to an exact number: truncation toward zero. -/
def pyint (q : ℚ) : ℤ := if 0 ≤ q then ⌊q⌋ else -⌊-q⌋

/-- Python true division: raises ZeroDivisionError on a zero divisor. -/
def pydiv (a b : ℚ) : Except String ℚ :=
  if b = 0 then .error "ZeroDivisionError" else .ok (a / b)

/-- One step of the progression generator of src/infographics/chart.py:
yield domain[current], then advance current to (current + 1) % len(domain).
Indexing into an empty domain raises IndexError. -/
def pynext (domain : List String) (current : ℕ) : Except String (String × ℕ) :=
  match domain.get? current with
  | some v => .ok (v, (current + 1) % domain.length)
  | none => .error "IndexError"

/-- math.degrees: convert radians to degrees. -/
noncomputable def degrees (x : ℝ) : ℝ := x * 180 / Real.pi

/-- Sum of the wedge weights: total = sum of item[0] over the dataset
(src/donuts.py line 151). -/
def totalOf (dataset : List WedgeInput) : ℚ :=
  (dataset.map (fun item => item.weight)).sum

/-- Point on the circle of radius r around center at angle a: the shape
Point(center.x + r*cos(angle), center.y + r*sin(angle)) built at
src/donuts.py lines 172 and 183. -/
noncomputable def pointAt (center : Point) (r : ℤ) (a : ℝ) : Point :=
  ⟨center.x + (r : ℝ) * Real.cos a, center.y + (r : ℝ) * Real.sin a⟩

/-- Loop state of DonutStyle.generate: the variables start, prior_angle,
cum_weight threaded through the for loop, plus the internal index of the
wedge color progression generator. -/
structure GenState where
  start : Point
  prior_angle : ℝ
  cum_weight : ℚ
  current : ℕ

/-- One emitted wedge group: the path attributes (large-arc flag, the two
boundary points of the path, the fill color) and the label attributes (the
translate offsets, the rotation angle, the text). -/
structure WedgeItem where
  large : ℕ
  p1 : Point
  p2 : Point
  fill : String
  dx : ℝ
  dy : ℝ
  text_angle : ℝ
  name : String
deriving Inhabited

/-- Font class emitted into the style block (size and fill color). -/
structure FontStyle where
  size : ℚ
  color : String
deriving DecidableEq

/-- The optional hole group: circle attributes and the centered title text. -/
structure HoleItem where
  cx : ℝ
  cy : ℝ
  r : ℤ
  fill : String
  title : String

/-- The chart returned by DonutStyle.generate: the svg element with its
square viewBox, the chart group attributes, and the emitted wedge groups
plus the optional hole group. -/
structure DonutChart where
  size : ℚ
  stroke : String
  stroke_width : ℚ
  font_title : FontStyle
  font_label : FontStyle
  center : Point
  r : ℤ
  items : List WedgeItem
  hole : Option HoleItem

open Classical in
/-- Body of the for loop of DonutStyle.generate (src/donuts.py lines
177-215): accumulate the weight, compute the boundary angle and point, the
large-arc flag, the fill color from the progression, the label position on
the bisecting radial and its rotation.  The division by total runs first
and the color progression second, in source order. -/
noncomputable def generateStep (s : DonutStyle) (total : ℚ) (r : ℤ) (center : Point)
    (r_text : ℝ) (st : GenState) (w : WedgeInput) : Except String (WedgeItem × GenState) :=
  match pydiv (st.cum_weight + w.weight) total, pynext s.wedge_colors st.current with
  | .error e, _ => .error e
  | .ok _, .error e => .error e
  | .ok frac, .ok fc =>
    let cum_weight := st.cum_weight + w.weight
    let angle : ℝ := s.init_angle + (frac : ℝ) * 2 * Real.pi
    let finish : Point := pointAt center r angle
    let lg : ℕ := if total / 2 < w.weight then 1 else 0
    let bisect : ℝ := (st.prior_angle + angle) / 2
    let dx : ℝ := center.x + r_text * Real.cos bisect + (w.opts.dx : ℝ) * (s.size : ℝ)
    let dy : ℝ := center.y + r_text * Real.sin bisect + (w.opts.dy : ℝ) * (s.size : ℝ)
    let t0 : ℝ := if w.opts.rotate then degrees bisect else 0
    let text_angle : ℝ := if -90 < t0 ∧ t0 < 90 then t0 else t0 - 180
    .ok (⟨lg, st.start, finish, fc.1, dx, dy, text_angle, w.name⟩,
         ⟨finish, angle, cum_weight, fc.2⟩)

/-- The for loop of generate: emit one wedge group per dataset element in
order, threading the loop state; a raised exception aborts the loop. -/
noncomputable def generateItems (s : DonutStyle) (total : ℚ) (r : ℤ) (center : Point)
    (r_text : ℝ) : GenState → List WedgeInput → Except String (List WedgeItem)
  | _, [] => .ok []
  | st, w :: ws =>
    match generateStep s total r center r_text st w with
    | .error e => .error e
    | .ok (item, st2) =>
      match generateItems s total r center r_text st2 ws with
      | .error e => .error e
      | .ok rest => .ok (item :: rest)

/-- DonutStyle.generate (src/donuts.py lines 107-236): compute the radius,
center, total weight, hole and label radii, run the wedge loop from the
initial state, and append the hole group when hole_size is positive. -/
noncomputable def generate (s : DonutStyle) (dataset : List WedgeInput)
    (title : String := "") : Except String DonutChart :=
  let r : ℤ := pyint (s.size / 2)
  let center : Point := ⟨(r : ℝ), (r : ℝ)⟩
  let total : ℚ := totalOf dataset
  let r_hole : ℚ := s.hole_size * s.size / 2
  let r_text : ℝ := ((r : ℝ) + (r_hole : ℝ)) / 2
  let start : Point := pointAt center r s.init_angle
  match generateItems s total r center r_text ⟨start, s.init_angle, 0, 0⟩ dataset with
  | .error e => .error e
  | .ok items =>
    .ok { size := s.size
        , stroke := s.border_color
        , stroke_width := s.border_size * s.size
        , font_title := ⟨s.title_size * s.size, s.title_color⟩
        , font_label := ⟨s.label_size * s.size, s.label_color⟩
        , center := center
        , r := r
        , items := items
        , hole := if 0 < s.hole_size then
            some ⟨center.x, center.y, pyint (s.hole_size * s.size / 2), s.hole_color, title⟩
          else none }

/-- Whether an Except value is a success. -/
def isOkE {α : Type _} : Except String α → Bool
  | .ok _ => true
  | .error _ => false

/-- Cumulative weight of the first k dataset elements: the value of the
loop variable cum_weight after k iterations. -/
def cumWeight (d : List WedgeInput) (k : ℕ) : ℚ :=
  ((d.take k).map (fun item => item.weight)).sum

/-- Boundary angle reached at cumulative weight c: the expression
init_angle + (cum_weight/total)*2*pi of src/donuts.py line 182. -/
noncomputable def wedgeAngle (s : DonutStyle) (total c : ℚ) : ℝ :=
  s.init_angle + ((c / total : ℚ) : ℝ) * 2 * Real.pi

open Classical in
/-- Closed-form description of the wedge group emitted for dataset element
w at index k, when the cumulative weight before the wedge is c. -/
noncomputable def closedItem (s : DonutStyle) (total : ℚ) (r : ℤ) (center : Point)
    (r_text : ℝ) (c : ℚ) (k : ℕ) (w : WedgeInput) : WedgeItem :=
  let aPrev := wedgeAngle s total c
  let a := wedgeAngle s total (c + w.weight)
  let bisect := (aPrev + a) / 2
  let t0 : ℝ := if w.opts.rotate then degrees bisect else 0
  { large := if total / 2 < w.weight then 1 else 0
  , p1 := pointAt center r aPrev
  , p2 := pointAt center r a
  , fill := (s.wedge_colors.get? (k % s.wedge_colors.length)).getD ""
  , dx := center.x + r_text * Real.cos bisect + (w.opts.dx : ℝ) * (s.size : ℝ)
  , dy := center.y + r_text * Real.sin bisect + (w.opts.dy : ℝ) * (s.size : ℝ)
  , text_angle := if -90 < t0 ∧ t0 < 90 then t0 else t0 - 180
  , name := w.name }

/-- Closed-form description of the whole emitted wedge list, starting from
cumulative weight c and wedge index k. -/
noncomputable def closedItems (s : DonutStyle) (total : ℚ) (r : ℤ) (center : Point)
    (r_text : ℝ) : ℚ → ℕ → List WedgeInput → List WedgeItem
  | _, _, [] => []
  | c, k, w :: ws =>
    closedItem s total r center r_text c k w ::
      closedItems s total r center r_text (c + w.weight) (k + 1) ws

lemma cursor_step (k n : ℕ) : (k % n + 1) % n = (k + 1) % n :=
  Nat.mod_add_mod k n 1

lemma generateStep_closed (s : DonutStyle) (total : ℚ) (r : ℤ) (center : Point)
    (r_text : ℝ) (htotal : total ≠ 0) (hn : s.wedge_colors ≠ [])
    (c : ℚ) (k : ℕ) (w : WedgeInput) :
    generateStep s total r center r_text
      ⟨pointAt center r (wedgeAngle s total c), wedgeAngle s total c, c,
       k % s.wedge_colors.length⟩ w
      = .ok (closedItem s total r center r_text c k w,
             ⟨pointAt center r (wedgeAngle s total (c + w.weight)),
              wedgeAngle s total (c + w.weight), c + w.weight,
              (k + 1) % s.wedge_colors.length⟩) := by
  have hlen : 0 < s.wedge_colors.length := List.length_pos.mpr hn
  have hmod : k % s.wedge_colors.length < s.wedge_colors.length := Nat.mod_lt _ hlen
  have hv := List.get?_eq_get hmod
  simp only [generateStep, pydiv, if_neg htotal, pynext, hv, closedItem,
    Option.getD_some, cursor_step, wedgeAngle]

lemma generateItems_closed (s : DonutStyle) (total : ℚ) (r : ℤ) (center : Point)
    (r_text : ℝ) (htotal : total ≠ 0) (hn : s.wedge_colors ≠ []) :
    ∀ (ws : List WedgeInput) (c : ℚ) (k : ℕ),
      generateItems s total r center r_text
        ⟨pointAt center r (wedgeAngle s total c), wedgeAngle s total c, c,
         k % s.wedge_colors.length⟩ ws
        = .ok (closedItems s total r center r_text c k ws) := by
  intro ws
  induction ws with
  | nil => intro c k; rfl
  | cons w rest ih =>
    intro c k
    simp only [generateItems, generateStep_closed s total r center r_text htotal hn c k w,
      ih (c + w.weight) (k + 1), closedItems]

/-- Closed-form value of a successful generate call. -/
noncomputable def chartOf (s : DonutStyle) (dataset : List WedgeInput)
    (title : String) : DonutChart :=
  let r : ℤ := pyint (s.size / 2)
  let center : Point := ⟨(r : ℝ), (r : ℝ)⟩
  let r_hole : ℚ := s.hole_size * s.size / 2
  let r_text : ℝ := ((r : ℝ) + (r_hole : ℝ)) / 2
  { size := s.size
  , stroke := s.border_color
  , stroke_width := s.border_size * s.size
  , font_title := ⟨s.title_size * s.size, s.title_color⟩
  , font_label := ⟨s.label_size * s.size, s.label_color⟩
  , center := center
  , r := r
  , items := closedItems s (totalOf dataset) r center r_text 0 0 dataset
  , hole := if 0 < s.hole_size then
      some ⟨center.x, center.y, pyint (s.hole_size * s.size / 2), s.hole_color, title⟩
    else none }

lemma generate_ok (s : DonutStyle) (dataset : List WedgeInput) (title : String)
    (htotal : totalOf dataset ≠ 0) (hn : s.wedge_colors ≠ []) :
    generate s dataset title = .ok (chartOf s dataset title) := by
  have key := generateItems_closed s (totalOf dataset) (pyint (s.size / 2))
    ⟨((pyint (s.size / 2) : ℤ) : ℝ), ((pyint (s.size / 2) : ℤ) : ℝ)⟩
    ((((pyint (s.size / 2) : ℤ) : ℝ) + ((s.hole_size * s.size / 2 : ℚ) : ℝ)) / 2)
    htotal hn dataset 0 0
  have hang : wedgeAngle s (totalOf dataset) 0 = s.init_angle := by
    simp [wedgeAngle]
  rw [hang, Nat.zero_mod] at key
  simp only [generate, key, chartOf]

lemma closedItems_get (s : DonutStyle) (total : ℚ) (r : ℤ) (center : Point)
    (r_text : ℝ) :
    ∀ (ws : List WedgeInput) (c : ℚ) (k i : ℕ),
      (closedItems s total r center r_text c k ws).get? i
        = (ws.get? i).map (fun w =>
            closedItem s total r center r_text (c + cumWeight ws i) (k + i) w) := by
  intro ws
  induction ws with
  | nil => intro c k i; simp [closedItems]
  | cons w rest ih =>
    intro c k i
    cases i with
    | zero =>
      simp [closedItems, cumWeight]
    | succ j =>
      have h1 : c + w.weight + cumWeight rest j = c + cumWeight (w :: rest) (j + 1) := by
        unfold cumWeight
        rw [List.take_succ_cons, List.map_cons, List.sum_cons]
        ring
      have h2 : k + 1 + j = k + (j + 1) := by omega
      simp only [closedItems, List.get?_cons_succ, ih (c + w.weight) (k + 1) j, h1, h2]

lemma cumWeight_succ (d : List WedgeInput) (k : ℕ) (w : WedgeInput)
    (hw : d.get? k = some w) :
    cumWeight d (k + 1) = cumWeight d k + w.weight := by
  have hw2 : d[k]? = some w := by rw [← List.get?_eq_getElem?]; exact hw
  unfold cumWeight
  rw [List.take_succ, hw2]
  simp

lemma chart_eq_of_ok (s : DonutStyle) (dataset : List WedgeInput) (title : String)
    (chart : DonutChart) (htotal : totalOf dataset ≠ 0) (hn : s.wedge_colors ≠ [])
    (hch : generate s dataset title = .ok chart) :
    chart = chartOf s dataset title := by
  rw [generate_ok s dataset title htotal hn] at hch
  exact (Except.ok.inj hch).symm

/-- C1 counterexample: on the empty dataset the total weight is zero, yet
generate succeeds: the wedge loop body never runs, so the division by
total never happens and an ok chart (with no wedge groups) is returned,
contradicting the claim that every zero-total dataset fails. -/
theorem generate_empty_dataset_ok :
    isOkE (generate defaultDonutStyle [] "") = true := rfl

/-- C1 (amended): for every NON-empty dataset whose weights sum to zero,
generate raises ZeroDivisionError at the first wedge, before emitting any
wedge geometry. -/
theorem generate_zero_total_error (s : DonutStyle) (dataset : List WedgeInput)
    (title : String) (hne : dataset ≠ []) (h0 : totalOf dataset = 0) :
    generate s dataset title = .error "ZeroDivisionError" := by
  obtain ⟨w, ws, rfl⟩ := List.exists_cons_of_ne_nil hne
  simp [generate, generateItems, generateStep, h0, pydiv]

/-- Concrete one-element dataset with weight zero. -/
def zeroW : WedgeInput := ⟨0, "a", {}⟩

/-- C1 witness: the amended theorem evaluated at the concrete dataset with
a single zero-weight wedge. -/
theorem generate_zero_total_error_witness :
    [zeroW] ≠ ([] : List WedgeInput) ∧ totalOf [zeroW] = 0 ∧
      generate defaultDonutStyle [zeroW] "" = .error "ZeroDivisionError" :=
  ⟨by decide, by simp [totalOf, zeroW],
    generate_zero_total_error defaultDonutStyle [zeroW] "" (by decide)
      (by simp [totalOf, zeroW])⟩

/-- C3: the large-arc-sweep flag emitted for the wedge at index k is 1
exactly when that wedge weight exceeds half the total, and 0 otherwise
(src/donuts.py lines 184-187). -/
theorem large_arc_flag (s : DonutStyle) (dataset : List WedgeInput) (title : String)
    (chart : DonutChart) (k : ℕ) (w : WedgeInput) (it : WedgeItem)
    (htotal : 0 < totalOf dataset) (hn : s.wedge_colors ≠ [])
    (hch : generate s dataset title = .ok chart)
    (hw : dataset.get? k = some w)
    (hit : chart.items.get? k = some it) :
    it.large = if totalOf dataset / 2 < w.weight then 1 else 0 := by
  obtain rfl := chart_eq_of_ok s dataset title chart (ne_of_gt htotal) hn hch
  simp only [chartOf] at hit
  rw [closedItems_get, hw] at hit
  simp only [Option.map_some'] at hit
  obtain rfl := (Option.some.inj hit).symm
  simp [closedItem]

/-- Concrete two-wedge dataset used by the witnesses: weight 3 without
rotation, weight 1 with rotation. -/
def dEx : List WedgeInput := [⟨3, "a", {}⟩, ⟨1, "b", ⟨0, 0, true⟩⟩]

/-- First element of dEx. -/
def wEx0 : WedgeInput := ⟨3, "a", {}⟩

/-- Second element of dEx. -/
def wEx1 : WedgeInput := ⟨1, "b", ⟨0, 0, true⟩⟩

/-- Chart value produced by generate on dEx with the default style. -/
noncomputable def chartEx : DonutChart := chartOf defaultDonutStyle dEx ""

/-- First emitted wedge group of chartEx. -/
noncomputable def itEx0 : WedgeItem := (chartEx.items.get? 0).getD default

/-- Second emitted wedge group of chartEx. -/
noncomputable def itEx1 : WedgeItem := (chartEx.items.get? 1).getD default

/-- C3 witness: the theorem applied to the first wedge of the concrete
dataset dEx; its weight 3 exceeds half the total 4, so the flag is 1. -/
theorem large_arc_flag_witness :
    0 < totalOf dEx ∧ dEx.get? 0 = some wEx0 ∧
      chartEx.items.get? 0 = some itEx0 ∧
      itEx0.large = if totalOf dEx / 2 < wEx0.weight then 1 else 0 :=
  ⟨by norm_num [totalOf, dEx], by decide, rfl,
    large_arc_flag defaultDonutStyle dEx "" chartEx 0 wEx0 itEx0
      (by norm_num [totalOf, dEx]) (by decide)
      (generate_ok defaultDonutStyle dEx "" (by norm_num [totalOf, dEx]) (by decide))
      (by decide) rfl⟩

/-- Bisecting angle of the wedge at index k: midpoint of the boundary
angles before and after the wedge, from the cumulative weights. -/
noncomputable def bisectAngle (s : DonutStyle) (dataset : List WedgeInput) (k : ℕ) : ℝ :=
  (wedgeAngle s (totalOf dataset) (cumWeight dataset k)
    + wedgeAngle s (totalOf dataset) (cumWeight dataset (k + 1))) / 2

lemma wedge_item_eq (s : DonutStyle) (dataset : List WedgeInput) (title : String)
    (chart : DonutChart) (k : ℕ) (it : WedgeItem)
    (htotal : totalOf dataset ≠ 0) (hn : s.wedge_colors ≠ [])
    (hch : generate s dataset title = .ok chart)
    (hit : chart.items.get? k = some it) :
    ∃ w, dataset.get? k = some w ∧
      it = closedItem s (totalOf dataset) (pyint (s.size / 2))
        ⟨((pyint (s.size / 2) : ℤ) : ℝ), ((pyint (s.size / 2) : ℤ) : ℝ)⟩
        ((((pyint (s.size / 2) : ℤ) : ℝ) + ((s.hole_size * s.size / 2 : ℚ) : ℝ)) / 2)
        (0 + cumWeight dataset k) (0 + k) w := by
  obtain rfl := chart_eq_of_ok s dataset title chart htotal hn hch
  simp only [chartOf] at hit
  rw [closedItems_get] at hit
  obtain ⟨w, hw, hwit⟩ := Option.map_eq_some'.mp hit
  exact ⟨w, hw, hwit.symm⟩

open Classical in
/-- C2: when the rotate option of the wedge at index k is set, its label
rotation equals the bisecting angle converted to degrees, with 180
subtracted when that value is not strictly between -90 and 90; when
rotate is not set, the rotation is 0 (src/donuts.py lines 194-203). -/
theorem label_rotation (s : DonutStyle) (dataset : List WedgeInput) (title : String)
    (chart : DonutChart) (k : ℕ) (w : WedgeInput) (it : WedgeItem)
    (htotal : 0 < totalOf dataset) (hn : s.wedge_colors ≠ [])
    (hch : generate s dataset title = .ok chart)
    (hw : dataset.get? k = some w)
    (hit : chart.items.get? k = some it) :
    (w.opts.rotate = true →
      it.text_angle =
        if -90 < degrees (bisectAngle s dataset k) ∧ degrees (bisectAngle s dataset k) < 90
        then degrees (bisectAngle s dataset k)
        else degrees (bisectAngle s dataset k) - 180) ∧
    (w.opts.rotate = false → it.text_angle = 0) := by
  obtain ⟨w2, hw2, rfl⟩ :=
    wedge_item_eq s dataset title chart k it (ne_of_gt htotal) hn hch hit
  rw [hw] at hw2
  obtain rfl := Option.some.inj hw2
  have hb : (wedgeAngle s (totalOf dataset) (0 + cumWeight dataset k)
      + wedgeAngle s (totalOf dataset) (0 + cumWeight dataset k + w.weight)) / 2
      = bisectAngle s dataset k := by
    simp only [zero_add, ← cumWeight_succ dataset k w hw, bisectAngle]
  constructor
  · intro hrot
    simp only [closedItem, hrot, if_true, hb]
  · intro hrot
    have hin : ((-90 : ℝ) < 0 ∧ (0 : ℝ) < 90) := by norm_num
    simp [closedItem, hrot, hin]

/-- C2 witness: the theorem applied to the second wedge of dEx, whose
rotate option is set, and to the first wedge, whose rotate option is not. -/
theorem label_rotation_witness :
    0 < totalOf dEx ∧ dEx.get? 1 = some wEx1 ∧
      chartEx.items.get? 1 = some itEx1 ∧ wEx1.opts.rotate = true ∧
      itEx1.text_angle =
        (if -90 < degrees (bisectAngle defaultDonutStyle dEx 1)
              ∧ degrees (bisectAngle defaultDonutStyle dEx 1) < 90
         then degrees (bisectAngle defaultDonutStyle dEx 1)
         else degrees (bisectAngle defaultDonutStyle dEx 1) - 180) :=
  ⟨by norm_num [totalOf, dEx], by decide, rfl, by decide,
    (label_rotation defaultDonutStyle dEx "" chartEx 1 wEx1 itEx1
      (by norm_num [totalOf, dEx]) (by decide)
      (generate_ok defaultDonutStyle dEx "" (by norm_num [totalOf, dEx]) (by decide))
      (by decide) rfl).1 (by decide)⟩

/-- C5: the wedge at index k is filled with the palette entry at index
k mod palette length (the progression of src/infographics/chart.py starts
at index 0 inside each generate call), and a second generate call with the
same style and dataset assigns the identical color to that index. -/
theorem wedge_fill_color (s : DonutStyle) (dataset : List WedgeInput) (title : String)
    (chart : DonutChart) (k : ℕ) (it : WedgeItem)
    (htotal : totalOf dataset ≠ 0) (hn : s.wedge_colors ≠ [])
    (hch : generate s dataset title = .ok chart)
    (hit : chart.items.get? k = some it) :
    it.fill = (s.wedge_colors.get? (k % s.wedge_colors.length)).getD "" ∧
    ∀ (title2 : String) (chart2 : DonutChart) (it2 : WedgeItem),
      generate s dataset title2 = .ok chart2 → chart2.items.get? k = some it2 →
        it2.fill = it.fill := by
  obtain ⟨w, hw, rfl⟩ :=
    wedge_item_eq s dataset title chart k it htotal hn hch hit
  constructor
  · simp [closedItem]
  · intro title2 chart2 it2 hch2 hit2
    obtain ⟨w2, hw2, rfl⟩ :=
      wedge_item_eq s dataset title2 chart2 k it2 htotal hn hch2 hit2
    rw [hw] at hw2
    obtain rfl := Option.some.inj hw2
    rfl

/-- C5 witness: the theorem applied at index 1 of dEx; with the default
eight-color palette the second wedge is blue, and a second call with a
different title assigns the same color. -/
theorem wedge_fill_color_witness :
    totalOf dEx ≠ 0 ∧ chartEx.items.get? 1 = some itEx1 ∧
      itEx1.fill =
        ((defaultDonutStyle.wedge_colors.get?
          (1 % defaultDonutStyle.wedge_colors.length)).getD "") :=
  ⟨by norm_num [totalOf, dEx], rfl,
    (wedge_fill_color defaultDonutStyle dEx "" chartEx 1 itEx1
      (by norm_num [totalOf, dEx]) (by decide)
      (generate_ok defaultDonutStyle dEx "" (by norm_num [totalOf, dEx]) (by decide))
      rfl).1⟩

/-- C10: the first wedge path starts at the point on the circle at the
initial angle, and each later wedge path starts exactly at the arc end
point of the preceding wedge (start = finish threading at src/donuts.py
line 214), so consecutive wedges share their boundary point exactly. -/
theorem wedge_boundary_invariant (s : DonutStyle) (dataset : List WedgeInput)
    (title : String) (chart : DonutChart)
    (htotal : 0 < totalOf dataset) (hn : s.wedge_colors ≠ [])
    (hch : generate s dataset title = .ok chart) :
    (∀ it, chart.items.get? 0 = some it →
        it.p1 = pointAt chart.center chart.r s.init_angle) ∧
    (∀ k it it2, chart.items.get? k = some it →
        chart.items.get? (k + 1) = some it2 → it2.p1 = it.p2) := by
  have hc := chart_eq_of_ok s dataset title chart (ne_of_gt htotal) hn hch
  constructor
  · intro it hit
    obtain ⟨w, hw, rfl⟩ :=
      wedge_item_eq s dataset title chart 0 it (ne_of_gt htotal) hn hch hit
    have h0 : wedgeAngle s (totalOf dataset) (0 + cumWeight dataset 0) = s.init_angle := by
      simp [wedgeAngle, cumWeight]
    subst hc
    simp only [chartOf, closedItem, h0]
  · intro k it it2 hit hit2
    obtain ⟨w, hw, rfl⟩ :=
      wedge_item_eq s dataset title chart k it (ne_of_gt htotal) hn hch hit
    obtain ⟨w2, hw2, rfl⟩ :=
      wedge_item_eq s dataset title chart (k + 1) it2 (ne_of_gt htotal) hn hch hit2
    have hcum : (0 : ℚ) + cumWeight dataset (k + 1)
        = 0 + cumWeight dataset k + w.weight := by
      rw [cumWeight_succ dataset k w hw]
      ring
    simp only [closedItem, hcum]

/-- C10 witness: the theorem applied to the concrete dataset dEx, with the
shared-boundary conclusion instantiated at the wedge pair (0, 1). -/
theorem wedge_boundary_invariant_witness :
    0 < totalOf dEx ∧ chartEx.items.get? 0 = some itEx0 ∧
      chartEx.items.get? 1 = some itEx1 ∧ itEx1.p1 = itEx0.p2 :=
  ⟨by norm_num [totalOf, dEx], rfl, rfl,
    (wedge_boundary_invariant defaultDonutStyle dEx "" chartEx
      (by norm_num [totalOf, dEx]) (by decide)
      (generate_ok defaultDonutStyle dEx "" (by norm_num [totalOf, dEx]) (by decide))).2
      0 itEx0 itEx1 rfl rfl⟩

/-- C4: for a non-empty dataset of positive weights, the boundary point
after wedge k lies at angle initAngle + (cumulative weight / total)*2*pi,
the angular spans of all wedges sum exactly to 2*pi, and the final
boundary angle is initAngle + 2*pi. -/
theorem wedge_angle_accumulation (s : DonutStyle) (dataset : List WedgeInput)
    (title : String) (chart : DonutChart)
    (hne : dataset ≠ []) (hpos : ∀ w ∈ dataset, 0 < w.weight)
    (hn : s.wedge_colors ≠ [])
    (hch : generate s dataset title = .ok chart) :
    (∀ k it, chart.items.get? k = some it →
        it.p2 = pointAt chart.center chart.r
          (wedgeAngle s (totalOf dataset) (cumWeight dataset (k + 1)))) ∧
    (∑ k ∈ Finset.range dataset.length,
        (wedgeAngle s (totalOf dataset) (cumWeight dataset (k + 1))
          - wedgeAngle s (totalOf dataset) (cumWeight dataset k)) = 2 * Real.pi) ∧
    wedgeAngle s (totalOf dataset) (cumWeight dataset dataset.length)
      = s.init_angle + 2 * Real.pi := by
  have htotal : 0 < totalOf dataset := by
    apply List.sum_pos
    · intro a ha
      obtain ⟨w, hwmem, rfl⟩ := List.mem_map.mp ha
      exact hpos w hwmem
    · simpa [totalOf] using hne
  have hT : totalOf dataset ≠ 0 := ne_of_gt htotal
  have hfn : cumWeight dataset dataset.length = totalOf dataset := by
    unfold cumWeight totalOf
    rw [List.take_length]
  have hf0 : cumWeight dataset 0 = 0 := rfl
  have hlast : wedgeAngle s (totalOf dataset) (cumWeight dataset dataset.length)
      = s.init_angle + 2 * Real.pi := by
    rw [hfn]
    unfold wedgeAngle
    rw [div_self hT]
    push_cast
    ring
  refine ⟨?_, ?_, hlast⟩
  · intro k it hit
    obtain ⟨w, hw, rfl⟩ :=
      wedge_item_eq s dataset title chart k it hT hn hch hit
    have hc := chart_eq_of_ok s dataset title chart hT hn hch
    subst hc
    have hcum : (0 : ℚ) + cumWeight dataset k + w.weight = cumWeight dataset (k + 1) := by
      rw [cumWeight_succ dataset k w hw]
      ring
    simp only [chartOf, closedItem, hcum]
  · rw [Finset.sum_range_sub
      (fun k => wedgeAngle s (totalOf dataset) (cumWeight dataset k)) dataset.length]
    rw [hlast, hf0]
    unfold wedgeAngle
    push_cast
    ring

/-- C4 witness: the theorem applied to the concrete dataset dEx, with the
per-wedge conclusion instantiated at wedge 0. -/
theorem wedge_angle_accumulation_witness :
    dEx ≠ [] ∧ (∀ w ∈ dEx, 0 < w.weight) ∧
      chartEx.items.get? 0 = some itEx0 ∧
      itEx0.p2 = pointAt chartEx.center chartEx.r
        (wedgeAngle defaultDonutStyle (totalOf dEx) (cumWeight dEx 1)) ∧
      wedgeAngle defaultDonutStyle (totalOf dEx) (cumWeight dEx dEx.length)
        = defaultDonutStyle.init_angle + 2 * Real.pi :=
  ⟨by decide, by decide, rfl,
    (wedge_angle_accumulation defaultDonutStyle dEx "" chartEx (by decide) (by decide)
      (by decide)
      (generate_ok defaultDonutStyle dEx "" (by norm_num [totalOf, dEx])
        (by decide))).1 0 itEx0 rfl,
    (wedge_angle_accumulation defaultDonutStyle dEx "" chartEx (by decide) (by decide)
      (by decide)
      (generate_ok defaultDonutStyle dEx "" (by norm_num [totalOf, dEx])
        (by decide))).2.2⟩

/-- Attribute value held by an element: the source stores strings via
str(value); numeric attribute values are modelled as exact numbers, string
values as strings. -/
inductive AVal where
  | str (s : String)
  | num (q : ℚ)
deriving DecidableEq

/-- Element tree: tag, attribute list and child list, the value-level model
of xml.etree.ElementTree.Element. -/
inductive ETree where
  | elem (tag : String) (attrib : List (String × AVal)) (children : List ETree)

/-- Tag of an element. -/
def ETree.tag : ETree → String
  | .elem t _ _ => t

/-- Attribute list of an element. -/
def ETree.attrib : ETree → List (String × AVal)
  | .elem _ a _ => a

/-- Child list of an element. -/
def ETree.children : ETree → List ETree
  | .elem _ _ c => c

/-- Dict item assignment (Element.set): replace the value of an existing
key in place, otherwise append the pair. -/
def dictSet (l : List (String × AVal)) (k : String) (v : AVal) :
    List (String × AVal) :=
  if (l.lookup k).isSome then l.map (fun p => if p.1 = k then (k, v) else p)
  else l ++ [(k, v)]

/-- Element.set on an element. -/
def ETree.setA : ETree → String → AVal → ETree
  | .elem t a c, k, v => .elem t (dictSet a k v) c

/-- Element.append on an element. -/
def ETree.appendChild : ETree → ETree → ETree
  | .elem t a c, g => .elem t a (c ++ [g])

/-- Numeric value of a list of decimal digits. -/
def digitsVal (ds : List Char) : ℤ :=
  ds.foldl (fun a c => a * 10 + ((c.toNat : ℤ) - 48)) 0

/-- Python int() applied to a string: an optional sign followed by at
least one digit; anything else raises ValueError. -/
def pyParseInt (t : String) : Except String ℤ :=
  let core : List Char → ℤ → Except String ℤ := fun ds sign =>
    if ds ≠ [] ∧ ds.all Char.isDigit then .ok (sign * digitsVal ds)
    else .error "ValueError: invalid literal for int"
  match t.toList with
  | '-' :: rest => core rest (-1)
  | '+' :: rest => core rest 1
  | l => core l 1

/-- Python list indexing: IndexError when out of range. -/
def pyindex (l : List ℤ) (i : ℕ) : Except String ℤ :=
  match l.get? i with
  | some v => .ok v
  | none => .error "IndexError"

/-- The list comprehension of add_graphic: apply int() to every field,
stopping at the first raised exception. -/
def parseFields : List String → Except String (List ℤ)
  | [] => .ok []
  | a :: rest =>
    match pyParseInt a with
    | .error e => .error e
    | .ok v =>
      match parseFields rest with
      | .error e => .error e
      | .ok vs => .ok (v :: vs)

/-- Python str.split() with no arguments over a character list: split on
runs of spaces, ignoring leading and trailing ones; cur accumulates the
current field in reverse.  (Python also splits on other whitespace, which
viewBox strings never contain here.) -/
def pySplitAux : List Char → List Char → List String
  | [], [] => []
  | [], cur => [String.mk cur.reverse]
  | c :: rest, cur =>
    if c = ' ' then
      if cur = [] then pySplitAux rest []
      else String.mk cur.reverse :: pySplitAux rest []
    else pySplitAux rest (c :: cur)

/-- Python str.split() with no arguments. -/
def pySplit (s : String) : List String := pySplitAux s.toList []

/-- The viewBox parse performed by add_graphic: read the viewBox attribute
of the source element, split the string on blanks and apply int() to every
field.  A missing attribute raises KeyError; a non-string value has no
split method and raises AttributeError; a bad field raises ValueError. -/
def parseViewBox (attrib : List (String × AVal)) : Except String (List ℤ) :=
  match attrib.lookup "viewBox" with
  | none => .error "KeyError: viewBox"
  | some (AVal.num _) => .error "AttributeError: split"
  | some (AVal.str vb) => parseFields (pySplit vb)

/-- Derivation of the height attribute when only width is given: parse the
source viewBox, read entries 3 and 2, and compute width*viewbox[3]/viewbox[2]
(src/infographics/canvas.py lines 115-119). -/
def deriveWidthOnly (attrib : List (String × AVal)) (w : ℚ) :
    Except String (List (String × AVal)) :=
  match parseViewBox attrib with
  | .error e => .error e
  | .ok vb =>
    match pyindex vb 3 with
    | .error e => .error e
    | .ok v3 =>
      match pyindex vb 2 with
      | .error e => .error e
      | .ok v2 =>
        match pydiv (w * (v3 : ℚ)) ((v2 : ℤ) : ℚ) with
        | .error e => .error e
        | .ok q => .ok [("width", AVal.num w), ("height", AVal.num q)]

/-- Derivation of the width attribute when only height is given: parse the
source viewBox, read entries 2 and 3, and compute height*viewbox[2]/viewbox[3]
(src/infographics/canvas.py lines 120-124). -/
def deriveHeightOnly (attrib : List (String × AVal)) (h : ℚ) :
    Except String (List (String × AVal)) :=
  match parseViewBox attrib with
  | .error e => .error e
  | .ok vb =>
    match pyindex vb 2 with
    | .error e => .error e
    | .ok v2 =>
      match pyindex vb 3 with
      | .error e => .error e
      | .ok v3 =>
        match pydiv (h * (v2 : ℚ)) ((v3 : ℤ) : ℚ) with
        | .error e => .error e
        | .ok q => .ok [("height", AVal.num h), ("width", AVal.num q)]

/-- The attribute assignments performed by add_graphic on the copied
graphic, in source order: x and y always; then the width block, deriving
height when height is missing; then the height block, deriving width when
width is missing (src/infographics/canvas.py lines 113-124). -/
def dimAttrs (attrib : List (String × AVal)) (x y : ℚ) (width height : Option ℚ) :
    Except String (List (String × AVal)) :=
  let base : List (String × AVal) := [("x", .num x), ("y", .num y)]
  match width, height with
  | none, none => .ok base
  | some w, some hh => .ok (base ++ [("width", AVal.num w), ("height", AVal.num hh)])
  | some w, none =>
    match deriveWidthOnly attrib w with
    | .error e => .error e
    | .ok sets => .ok (base ++ sets)
  | none, some hh =>
    match deriveHeightOnly attrib hh with
    | .error e => .error e
    | .ok sets => .ok (base ++ sets)

/-- Canvas of src/infographics/canvas.py: the user-unit width and height
and the root svg element holding the placed graphics. -/
structure Canvas where
  width : ℚ
  height : ℚ
  svg : ETree

/-- Canvas.add_graphic (src/infographics/canvas.py lines 83-126): raise
ValueError for an argument that is not an svg element; otherwise set x, y
and the width/height attributes (derived from the source viewBox when
exactly one of the two is given) on a deep copy of the argument, and append
the copy to the canvas root.  The result pairs the raised exception, if
any, with the canvas after the call; every raise in the source happens
before the append, so on an exception the canvas is unchanged. -/
def addGraphic (c : Canvas) (svg : ETree) (x y : ℚ) (width height : Option ℚ) :
    Option String × Canvas :=
  if svg.tag ≠ "svg" then (some "ValueError: Non-SVG argument", c)
  else
    match dimAttrs svg.attrib x y width height with
    | .error e => (some e, c)
    | .ok sets =>
      let graphic := sets.foldl (fun g kv => g.setA kv.1 kv.2) svg
      (none, { c with svg := c.svg.appendChild graphic })

/-- Attribute of the most recently appended child of the canvas root. -/
def lastAttr (c : Canvas) (k : String) : Option AVal :=
  c.svg.children.getLast?.bind (fun g => g.attrib.lookup k)

lemma lookup_replace {β : Type _} (l : List (String × β)) (k : String) (v : β)
    (h : (l.lookup k).isSome = true) :
    (l.map (fun p => if p.1 = k then (k, v) else p)).lookup k = some v := by
  induction l with
  | nil => simp [List.lookup] at h
  | cons p rest ih =>
    obtain ⟨pk, pv⟩ := p
    by_cases hp : pk = k
    · subst hp
      simp [List.lookup_cons]
    · have h2 : (rest.lookup k).isSome = true := by
        simpa [List.lookup_cons, beq_false_of_ne (Ne.symm hp)] using h
      simp [List.lookup_cons, hp, beq_false_of_ne (Ne.symm hp), ih h2]

lemma lookup_replace_ne {β : Type _} (l : List (String × β)) (k k2 : String) (v : β)
    (h : k2 ≠ k) :
    (l.map (fun p => if p.1 = k then (k, v) else p)).lookup k2 = l.lookup k2 := by
  induction l with
  | nil => simp
  | cons p rest ih =>
    obtain ⟨pk, pv⟩ := p
    by_cases hp : pk = k
    · subst hp
      simp [List.lookup_cons, beq_false_of_ne h, ih]
    · simp [List.lookup_cons, hp, ih]

lemma lookup_append_self {β : Type _} (l : List (String × β)) (k : String) (v : β)
    (h : l.lookup k = none) : (l ++ [(k, v)]).lookup k = some v := by
  induction l with
  | nil => simp [List.lookup_cons]
  | cons p rest ih =>
    obtain ⟨pk, pv⟩ := p
    by_cases hp : k = pk
    · simp [List.lookup_cons, hp] at h
    · have h2 : rest.lookup k = none := by
        simpa [List.lookup_cons, beq_false_of_ne hp] using h
      simp [List.lookup_cons, beq_false_of_ne hp, ih h2]

lemma lookup_append_ne {β : Type _} (l : List (String × β)) (k k2 : String) (v : β)
    (h : k2 ≠ k) : (l ++ [(k, v)]).lookup k2 = l.lookup k2 := by
  induction l with
  | nil => simp [List.lookup_cons, beq_false_of_ne h]
  | cons p rest ih =>
    obtain ⟨pk, pv⟩ := p
    simp [List.lookup_cons, ih]

lemma dictSet_lookup_self (l : List (String × AVal)) (k : String) (v : AVal) :
    (dictSet l k v).lookup k = some v := by
  unfold dictSet
  split
  · exact lookup_replace l k v (by assumption)
  · refine lookup_append_self l k v ?_
    rename_i h2
    exact Option.not_isSome_iff_eq_none.mp h2

lemma dictSet_lookup_ne (l : List (String × AVal)) (k k2 : String) (v : AVal)
    (h : k2 ≠ k) : (dictSet l k v).lookup k2 = l.lookup k2 := by
  unfold dictSet
  split
  · exact lookup_replace_ne l k k2 v h
  · exact lookup_append_ne l k k2 v h

lemma setA_attrib (g : ETree) (k : String) (v : AVal) :
    (g.setA k v).attrib = dictSet g.attrib k v := by
  cases g
  rfl

lemma lastAttr_append (c : Canvas) (g : ETree) (k : String) :
    lastAttr { c with svg := c.svg.appendChild g } k = g.attrib.lookup k := by
  unfold lastAttr
  cases hc : c.svg with
  | elem t a ch =>
    simp [ETree.appendChild, ETree.children, List.getLast?_concat]

/-- C6: add_graphic with both width and height sets both exactly as passed
without consulting the viewBox; with exactly one of the two given, the
missing dimension is derived from the source viewBox so that the declared
aspect ratio is preserved exactly (height = width*viewboxHeight/viewboxWidth
and symmetrically). -/
theorem add_graphic_dimensions (c : Canvas) (g : ETree) (x y : ℚ)
    (htag : g.tag = "svg") :
    (∀ w hh : ℚ,
      (addGraphic c g x y (some w) (some hh)).1 = none ∧
      lastAttr (addGraphic c g x y (some w) (some hh)).2 "width" = some (.num w) ∧
      lastAttr (addGraphic c g x y (some w) (some hh)).2 "height" = some (.num hh)) ∧
    (∀ (w : ℚ) (vb : List ℤ) (va vbh : ℤ),
      parseViewBox g.attrib = .ok vb → vb.get? 2 = some va → vb.get? 3 = some vbh →
      (va : ℚ) ≠ 0 →
      (addGraphic c g x y (some w) none).1 = none ∧
      lastAttr (addGraphic c g x y (some w) none).2 "width" = some (.num w) ∧
      lastAttr (addGraphic c g x y (some w) none).2 "height"
        = some (.num (w * (vbh : ℚ) / (va : ℚ)))) ∧
    (∀ (hh : ℚ) (vb : List ℤ) (va vbh : ℤ),
      parseViewBox g.attrib = .ok vb → vb.get? 2 = some va → vb.get? 3 = some vbh →
      (vbh : ℚ) ≠ 0 →
      (addGraphic c g x y none (some hh)).1 = none ∧
      lastAttr (addGraphic c g x y none (some hh)).2 "height" = some (.num hh) ∧
      lastAttr (addGraphic c g x y none (some hh)).2 "width"
        = some (.num (hh * (va : ℚ) / (vbh : ℚ)))) := by
  refine ⟨?_, ?_, ?_⟩
  · intro w hh
    simp only [addGraphic, htag, ne_eq, not_true_eq_false, if_false, dimAttrs,
      List.foldl, lastAttr_append, setA_attrib]
    refine ⟨trivial, ?_, ?_⟩
    · rw [dictSet_lookup_ne _ _ _ _ (by decide), dictSet_lookup_self]
    · rw [dictSet_lookup_self]
  · intro w vb va vbh hvb h2 h3 hva
    simp only [addGraphic, htag, ne_eq, not_true_eq_false, if_false, dimAttrs,
      deriveWidthOnly, hvb, pyindex, h2, h3, pydiv, if_neg hva,
      List.foldl, lastAttr_append, setA_attrib]
    refine ⟨trivial, ?_, ?_⟩
    · rw [dictSet_lookup_ne _ _ _ _ (by decide), dictSet_lookup_self]
    · rw [dictSet_lookup_self]
  · intro hh vb va vbh hvb h2 h3 hvbh
    simp only [addGraphic, htag, ne_eq, not_true_eq_false, if_false, dimAttrs,
      deriveHeightOnly, hvb, pyindex, h2, h3, pydiv, if_neg hvbh,
      List.foldl, lastAttr_append, setA_attrib]
    refine ⟨trivial, ?_, ?_⟩
    · rw [dictSet_lookup_ne _ _ _ _ (by decide), dictSet_lookup_self]
    · rw [dictSet_lookup_self]

lemma pyParseInt_error (t e : String) (h : pyParseInt t = .error e) :
    e = "ValueError: invalid literal for int" := by
  unfold pyParseInt at h
  dsimp only at h
  split at h <;> split at h <;>
    first
      | exact (Except.error.inj h).symm
      | exact absurd h (by simp)

lemma parseFields_error (l : List String) (e : String)
    (h : parseFields l = .error e) : e = "ValueError: invalid literal for int" := by
  induction l with
  | nil => exact absurd h (by simp [parseFields])
  | cons a rest ih =>
    unfold parseFields at h
    split at h
    · rename_i e0 he0
      obtain rfl := Except.error.inj h
      exact pyParseInt_error a _ he0
    · split at h
      · rename_i e0 he0
        obtain rfl := Except.error.inj h
        exact ih he0
      · exact absurd h (by simp)

lemma parseViewBox_error (attrib : List (String × AVal)) (e : String)
    (h : parseViewBox attrib = .error e) :
    e = "KeyError: viewBox" ∨ e = "AttributeError: split"
      ∨ e = "ValueError: invalid literal for int" := by
  unfold parseViewBox at h
  split at h
  · exact Or.inl (Except.error.inj h).symm
  · exact Or.inr (Or.inl (Except.error.inj h).symm)
  · exact Or.inr (Or.inr (parseFields_error _ e h))

lemma deriveWidthOnly_error (attrib : List (String × AVal)) (w : ℚ) (e : String)
    (h : deriveWidthOnly attrib w = .error e) :
    e ≠ "ValueError: Non-SVG argument" := by
  unfold deriveWidthOnly at h
  split at h
  · rename_i e0 he0
    obtain rfl := Except.error.inj h
    rcases parseViewBox_error attrib e0 he0 with rfl | rfl | rfl <;> decide
  · split at h
    · rename_i e0 he0
      obtain rfl := Except.error.inj h
      unfold pyindex at he0
      split at he0
      · exact absurd he0 (by simp)
      · obtain rfl := Except.error.inj he0
        decide
    · split at h
      · rename_i e0 he0
        obtain rfl := Except.error.inj h
        unfold pyindex at he0
        split at he0
        · exact absurd he0 (by simp)
        · obtain rfl := Except.error.inj he0
          decide
      · split at h
        · rename_i e0 he0
          obtain rfl := Except.error.inj h
          unfold pydiv at he0
          split at he0
          · obtain rfl := Except.error.inj he0
            decide
          · exact absurd he0 (by simp)
        · exact absurd h (by simp)

lemma deriveHeightOnly_error (attrib : List (String × AVal)) (hh : ℚ) (e : String)
    (h : deriveHeightOnly attrib hh = .error e) :
    e ≠ "ValueError: Non-SVG argument" := by
  unfold deriveHeightOnly at h
  split at h
  · rename_i e0 he0
    obtain rfl := Except.error.inj h
    rcases parseViewBox_error attrib e0 he0 with rfl | rfl | rfl <;> decide
  · split at h
    · rename_i e0 he0
      obtain rfl := Except.error.inj h
      unfold pyindex at he0
      split at he0
      · exact absurd he0 (by simp)
      · obtain rfl := Except.error.inj he0
        decide
    · split at h
      · rename_i e0 he0
        obtain rfl := Except.error.inj h
        unfold pyindex at he0
        split at he0
        · exact absurd he0 (by simp)
        · obtain rfl := Except.error.inj he0
          decide
      · split at h
        · rename_i e0 he0
          obtain rfl := Except.error.inj h
          unfold pydiv at he0
          split at he0
          · obtain rfl := Except.error.inj he0
            decide
          · exact absurd he0 (by simp)
        · exact absurd h (by simp)

lemma dimAttrs_error_ne (attrib : List (String × AVal)) (x y : ℚ)
    (width height : Option ℚ) (e : String)
    (h : dimAttrs attrib x y width height = .error e) :
    e ≠ "ValueError: Non-SVG argument" := by
  unfold dimAttrs at h
  dsimp only at h
  split at h
  · exact absurd h (by simp)
  · exact absurd h (by simp)
  · split at h
    · rename_i e0 he0
      obtain rfl := Except.error.inj h
      exact deriveWidthOnly_error attrib _ e0 he0
    · exact absurd h (by simp)
  · split at h
    · rename_i e0 he0
      obtain rfl := Except.error.inj h
      exact deriveHeightOnly_error attrib _ e0 he0
    · exact absurd h (by simp)

/-- C7 (amended): add_graphic raises the ValueError with message Non-SVG
argument exactly when the passed drawable is not an svg element; on every
raised error (including the other ValueError coming from int() on a
malformed viewBox) the canvas is unchanged, no child being appended. -/
theorem add_graphic_nonsvg (c : Canvas) (g : ETree) (x y : ℚ)
    (width height : Option ℚ) :
    ((addGraphic c g x y width height).1 = some "ValueError: Non-SVG argument"
      ↔ g.tag ≠ "svg") ∧
    (∀ e, (addGraphic c g x y width height).1 = some e →
      (addGraphic c g x y width height).2 = c) := by
  by_cases htag : g.tag = "svg"
  · rcases hd : dimAttrs g.attrib x y width height with e | sets
    · have hres : addGraphic c g x y width height = (some e, c) := by
        simp [addGraphic, htag, hd]
      rw [hres]
      exact ⟨⟨fun h => absurd (Option.some.inj h) (dimAttrs_error_ne _ _ _ _ _ _ hd),
        fun h => absurd htag h⟩, fun e2 _ => rfl⟩
    · have hres1 : (addGraphic c g x y width height).1 = none := by
        simp [addGraphic, htag, hd]
      constructor
      · rw [hres1]
        simp [htag]
      · intro e2 h
        rw [hres1] at h
        exact absurd h (by simp)
  · have hres : addGraphic c g x y width height
        = (some "ValueError: Non-SVG argument", c) := by
      simp [addGraphic, htag]
    rw [hres]
    exact ⟨⟨fun _ => htag, fun _ => rfl⟩, fun e2 _ => rfl⟩

/-- A canvas with an empty svg root, for the concrete canvas theorems. -/
def cEx : Canvas := ⟨1000, 1000, .elem "svg" [] []⟩

/-- An svg element whose viewBox fields are not integers. -/
def badVB : ETree := .elem "svg" [("viewBox", .str "0 0 a b")] []

/-- C7 counterexample: a drawable whose tag IS svg still makes add_graphic
raise a ValueError, coming from int() on the malformed viewBox, when only
width is given; so an invalid-argument error is not raised only for
non-svg drawables, refuting the only-if direction of the claim. -/
theorem add_graphic_valueerror_with_svg_tag :
    badVB.tag = "svg" ∧
      (addGraphic cEx badVB 0 0 (some 5) none).1
        = some "ValueError: invalid literal for int" :=
  ⟨rfl, rfl⟩

/-- A drawing object that is not a top-level svg container. -/
def gEl : ETree := .elem "g" [] []

/-- C7 witness: the amended theorem applied at a concrete group element:
the Non-SVG error is raised and the canvas is unchanged. -/
theorem add_graphic_nonsvg_witness :
    gEl.tag ≠ "svg" ∧
      (addGraphic cEx gEl 0 0 none none).1 = some "ValueError: Non-SVG argument" ∧
      (addGraphic cEx gEl 0 0 none none).2 = cEx :=
  ⟨by decide, (add_graphic_nonsvg cEx gEl 0 0 none none).1.mpr (by decide),
    (add_graphic_nonsvg cEx gEl 0 0 none none).2 "ValueError: Non-SVG argument"
      ((add_graphic_nonsvg cEx gEl 0 0 none none).1.mpr (by decide))⟩

/-- An svg element declaring a 1000 by 500 viewBox. -/
def vbEx : ETree := .elem "svg" [("viewBox", .str "0 0 1000 500")] []

/-- C6 witness: the theorem applied at the concrete element vbEx with only
width 100 given; the derived height is 100*500/1000. -/
theorem add_graphic_dimensions_witness :
    vbEx.tag = "svg" ∧ parseViewBox vbEx.attrib = .ok [0, 0, 1000, 500] ∧
      (addGraphic cEx vbEx 0 0 (some 100) none).1 = none ∧
      lastAttr (addGraphic cEx vbEx 0 0 (some 100) none).2 "width"
        = some (.num 100) ∧
      lastAttr (addGraphic cEx vbEx 0 0 (some 100) none).2 "height"
        = some (.num (100 * ((500 : ℤ) : ℚ) / ((1000 : ℤ) : ℚ))) := by
  have h := (add_graphic_dimensions cEx vbEx 0 0 rfl).2.1 100 [0, 0, 1000, 500]
    1000 500 rfl (by decide) (by decide) (by norm_num)
  exact ⟨rfl, rfl, h.1, h.2.1, h.2.2⟩

/-- Python value of a style instance attribute: exact number, real number,
string, or tuple of strings. -/
inductive PyVal where
  | num (q : ℚ)
  | real (r : ℝ)
  | str (s : String)
  | strs (l : List String)

/-- The instance attributes assigned by DonutStyle.__init__ before the
keyword loop, in assignment order, with their default values
(src/donuts.py lines 67-81); the leading-underscore size attribute also
takes part in hasattr.  The fontspec attribute is assigned only after the
loop and so is absent during it. -/
noncomputable def defaultStyleAttrs : List (String × PyVal) :=
  [("_size", .num 1000),
   ("border_size", .num (1 / 100)),
   ("hole_size", .num (3 / 10)),
   ("title_size", .num (2 / 25)),
   ("label_size", .num (2 / 25)),
   ("border_color", .str "white"),
   ("hole_color", .str "silver"),
   ("title_color", .str "black"),
   ("label_color", .str "white"),
   ("wedge_colors", .strs
     ["red", "blue", "green", "orange", "teal", "brown", "magenta", "cyan"]),
   ("init_angle", .real (-(Real.pi / 2)))]

/-- setattr on the attribute record: replace the value of the named
existing attribute in place. -/
def setStyleAttr (attrs : List (String × PyVal)) (k : String) (v : PyVal) :
    List (String × PyVal) :=
  attrs.map (fun p => if p.1 = k then (k, v) else p)

/-- One iteration of the keyword loop of DonutStyle.__init__
(src/donuts.py lines 83-86): setattr when hasattr holds, else silently
do nothing. -/
def applyKwarg (attrs : List (String × PyVal)) (kv : String × PyVal) :
    List (String × PyVal) :=
  if (attrs.lookup kv.1).isSome then setStyleAttr attrs kv.1 kv.2 else attrs

/-- DonutStyle.__init__ applied to a keyword dict (keys are distinct in a
Python call): fold the keyword loop over the default attribute record. -/
noncomputable def initStyle (kwargs : List (String × PyVal)) :
    List (String × PyVal) :=
  kwargs.foldl applyKwarg defaultStyleAttrs

lemma lookup_isSome_iff {β : Type _} (l : List (String × β)) (k : String) :
    (l.lookup k).isSome = true ↔ k ∈ l.map Prod.fst := by
  induction l with
  | nil => simp
  | cons p rest ih =>
    obtain ⟨pk, pv⟩ := p
    by_cases h : k = pk
    · subst h
      simp [List.lookup_cons]
    · simp [List.lookup_cons, beq_false_of_ne h, h, ih]

lemma setStyleAttr_keys (attrs : List (String × PyVal)) (k : String) (v : PyVal) :
    (setStyleAttr attrs k v).map Prod.fst = attrs.map Prod.fst := by
  unfold setStyleAttr
  rw [List.map_map]
  refine List.map_congr_left ?_
  intro p _
  by_cases h : p.1 = k
  · simp [h]
  · simp [h]

lemma applyKwarg_keys (attrs : List (String × PyVal)) (kv : String × PyVal) :
    (applyKwarg attrs kv).map Prod.fst = attrs.map Prod.fst := by
  unfold applyKwarg
  split
  · exact setStyleAttr_keys attrs kv.1 kv.2
  · rfl

lemma initFold_keys (kwargs : List (String × PyVal)) :
    ∀ attrs : List (String × PyVal),
      (kwargs.foldl applyKwarg attrs).map Prod.fst = attrs.map Prod.fst := by
  induction kwargs with
  | nil => intro attrs; rfl
  | cons kv rest ih =>
    intro attrs
    rw [List.foldl_cons, ih, applyKwarg_keys]

lemma applyKwarg_lookup_self (attrs : List (String × PyVal)) (k : String)
    (v : PyVal) (h : (attrs.lookup k).isSome = true) :
    (applyKwarg attrs (k, v)).lookup k = some v := by
  simp only [applyKwarg]
  rw [if_pos h]
  exact lookup_replace attrs k v h

lemma initFold_lookup_not_mem (rest : List (String × PyVal)) (k : String)
    (hk : k ∉ rest.map Prod.fst) :
    ∀ attrs, (rest.foldl applyKwarg attrs).lookup k = attrs.lookup k := by
  induction rest with
  | nil => intro attrs; rfl
  | cons kv r ih =>
    intro attrs
    have hk1 : k ≠ kv.1 := by
      intro h
      exact hk (by simp [h])
    have hkr : k ∉ r.map Prod.fst := fun h => hk (List.mem_cons_of_mem _ h)
    rw [List.foldl_cons, ih hkr]
    unfold applyKwarg
    split
    · exact lookup_replace_ne attrs kv.1 k kv.2 hk1
    · rfl

/-- C9: constructing a style with keyword arguments sets every keyword
that names an existing attribute to the supplied value and silently
ignores every unrecognized keyword: no error is raised, the attribute set
is unchanged, and every attribute not named in the keywords keeps its
default value. -/
theorem style_kwargs (kwargs : List (String × PyVal))
    (hnd : (kwargs.map Prod.fst).Nodup) :
    ((initStyle kwargs).map Prod.fst = defaultStyleAttrs.map Prod.fst) ∧
    (∀ k v, (k, v) ∈ kwargs → (defaultStyleAttrs.lookup k).isSome = true →
      (initStyle kwargs).lookup k = some v) ∧
    (∀ k, k ∉ kwargs.map Prod.fst →
      (initStyle kwargs).lookup k = defaultStyleAttrs.lookup k) := by
  refine ⟨initFold_keys kwargs defaultStyleAttrs, ?_, ?_⟩
  · intro k v hmem hrec
    obtain ⟨pre, post, rfl⟩ := List.append_of_mem hmem
    have hmap : (pre ++ (k, v) :: post).map Prod.fst
        = pre.map Prod.fst ++ k :: post.map Prod.fst := by
      simp
    rw [hmap] at hnd
    have hkpost : k ∉ post.map Prod.fst := by
      have h2 := hnd.of_append_right
      exact (List.nodup_cons.mp h2).1
    unfold initStyle
    rw [List.foldl_append, List.foldl_cons]
    rw [initFold_lookup_not_mem post k hkpost]
    have hkeys : (pre.foldl applyKwarg defaultStyleAttrs).map Prod.fst
        = defaultStyleAttrs.map Prod.fst := initFold_keys pre defaultStyleAttrs
    have hsome : ((pre.foldl applyKwarg defaultStyleAttrs).lookup k).isSome = true := by
      rw [lookup_isSome_iff, hkeys, ← lookup_isSome_iff]
      exact hrec
    exact applyKwarg_lookup_self _ k v hsome
  · intro k hk
    exact initFold_lookup_not_mem kwargs k hk defaultStyleAttrs

/-- Concrete keyword dict with one recognized and one unknown key. -/
def kwEx : List (String × PyVal) := [("hole_size", .num (1 / 2)), ("bogus", .str "x")]

/-- C9 witness: the theorem applied at the concrete keyword dict kwEx: the
recognized hole_size keyword is set, the unknown bogus keyword adds no
attribute, and an attribute not named keeps its default. -/
theorem style_kwargs_witness :
    (kwEx.map Prod.fst).Nodup ∧
      (initStyle kwEx).lookup "hole_size" = some (.num (1 / 2)) ∧
      (initStyle kwEx).lookup "bogus" = none ∧
      (initStyle kwEx).lookup "border_color" = some (.str "white") := by
  have h := style_kwargs kwEx (by decide)
  refine ⟨by decide, h.2.1 "hole_size" (.num (1 / 2)) (by simp [kwEx]) rfl, ?_, ?_⟩
  · have hno : ("bogus" : String) ∉ defaultStyleAttrs.map Prod.fst := by
      have hkeys : defaultStyleAttrs.map Prod.fst
          = ["_size", "border_size", "hole_size", "title_size", "label_size",
             "border_color", "hole_color", "title_color", "label_color",
             "wedge_colors", "init_angle"] := rfl
      rw [hkeys]
      decide
    have hiff := lookup_isSome_iff (initStyle kwEx) "bogus"
    rw [h.1] at hiff
    exact Option.not_isSome_iff_eq_none.mp (fun hs => hno (hiff.mp hs))
  · exact (h.2.2 "border_color" (by decide)).trans rfl

/-- Heap cell of the reference-level element model: tag, attribute dict,
and the identities of the children. -/
structure HElem where
  tag : String
  attrib : List (String × AVal)
  children : List ℕ
deriving DecidableEq

/-- The element heap: cell i of the list is the element with identity i;
allocation appends a cell. -/
abbrev Store := List HElem

/-- Element.set reached through a reference: overwrite the attribute dict
of cell i. -/
def hSetAttr (s : Store) (i : ℕ) (k : String) (v : AVal) : Store :=
  match s.get? i with
  | none => s
  | some e => s.set i { e with attrib := dictSet e.attrib k v }

/-- Element.append reached through a reference: append the child identity
c to cell i. -/
def hAppendChild (s : Store) (i : ℕ) (c : ℕ) : Store :=
  match s.get? i with
  | none => s
  | some e => s.set i { e with children := e.children ++ [c] }

mutual
/-- copy.deepcopy of the element at identity i: copy the children left to
right, then allocate a fresh cell holding the copied tag, attributes and
child identities.  The fuel bounds the recursion depth and is irrelevant
for trees shallower than it. -/
def deepcopyN : ℕ → Store → ℕ → Store × Option ℕ
  | 0, s, _ => (s, none)
  | fuel + 1, s, i =>
    match s.get? i with
    | none => (s, none)
    | some e =>
      match deepcopyL fuel s e.children with
      | (s1, none) => (s1, none)
      | (s1, some kids) =>
        (s1 ++ [{ tag := e.tag, attrib := e.attrib, children := kids }], some s1.length)
termination_by fuel _ _ => (fuel, 0)

/-- deepcopy of a child list, left to right, threading the heap. -/
def deepcopyL : ℕ → Store → List ℕ → Store × Option (List ℕ)
  | _, s, [] => (s, some [])
  | fuel, s, c :: rest =>
    match deepcopyN fuel s c with
    | (s1, none) => (s1, none)
    | (s1, some n) =>
      match deepcopyL fuel s1 rest with
      | (s2, none) => (s2, none)
      | (s2, some ns) => (s2, some (n :: ns))
termination_by fuel _ l => (fuel, l.length + 1)
end

mutual
/-- Abstract element tree read back from the heap at identity i, to the
given depth. -/
def viewN : ℕ → Store → ℕ → Option ETree
  | 0, _, _ => none
  | fuel + 1, s, i =>
    match s.get? i with
    | none => none
    | some e => some (.elem e.tag e.attrib (viewL fuel s e.children))
termination_by fuel _ _ => (fuel, 0)

/-- Abstract trees of a child list; missing children are skipped. -/
def viewL : ℕ → Store → List ℕ → List ETree
  | _, _, [] => []
  | fuel, s, c :: rest =>
    match viewN fuel s c with
    | none => viewL fuel s rest
    | some t => t :: viewL fuel s rest
termination_by fuel _ l => (fuel, l.length + 1)
end

mutual
/-- Every identity reachable from i within the given depth exists in the
heap and is at least L: the subtree was allocated at or after heap size
L. -/
def freshN : ℕ → Store → ℕ → ℕ → Prop
  | 0, _, _, _ => True
  | fuel + 1, s, L, i =>
    match s.get? i with
    | none => False
    | some e => L ≤ i ∧ freshL fuel s L e.children
termination_by fuel _ _ _ => (fuel, 0)

/-- Freshness of each member of a child list. -/
def freshL : ℕ → Store → ℕ → List ℕ → Prop
  | _, _, _, [] => True
  | fuel, s, L, c :: rest => freshN fuel s L c ∧ freshL fuel s L rest
termination_by fuel _ _ l => (fuel, l.length + 1)
end

/-- Canvas.add_graphic at the reference level (src/infographics/canvas.py
lines 83-126): check the tag through the reference, deepcopy the source
element, set the position and size attributes on the fresh copy, and
append the copy identity to the canvas root cell.  The result carries the
raised exception if any, the heap after the call, and the identity of the
appended copy. -/
def addGraphicH (fuel : ℕ) (s : Store) (root svgId : ℕ) (x y : ℚ)
    (width height : Option ℚ) : Option String × Store × Option ℕ :=
  match s.get? svgId with
  | none => (some "ReferenceError", s, none)
  | some e =>
    if e.tag ≠ "svg" then (some "ValueError: Non-SVG argument", s, none)
    else
      match deepcopyN fuel s svgId with
      | (s1, none) => (some "RecursionError", s1, none)
      | (s1, some g) =>
        match dimAttrs e.attrib x y width height with
        | .error err => (some err, s1, none)
        | .ok sets =>
          let s2 := sets.foldl (fun st kv => hSetAttr st g kv.1 kv.2) s1
          (none, hAppendChild s2 root g, some g)

lemma get?_of_append_of_some {s t : Store} {i : ℕ} {e : HElem}
    (hs : s.get? i = some e) : (s ++ t).get? i = some e := by
  have hlt : i < s.length := by
    by_contra hge
    rw [List.get?_eq_none.mpr (Nat.le_of_not_lt hge)] at hs
    exact absurd hs (by simp)
  rw [List.get?_append hlt]
  exact hs

lemma deepcopy_extend (fuel : ℕ) :
    (∀ (s : Store) (i : ℕ), ∃ t, (deepcopyN fuel s i).1 = s ++ t) ∧
    (∀ (s : Store) (l : List ℕ), ∃ t, (deepcopyL fuel s l).1 = s ++ t) := by
  induction fuel with
  | zero =>
    have hN : ∀ (s : Store) (i : ℕ), ∃ t, (deepcopyN 0 s i).1 = s ++ t := by
      intro s i
      exact ⟨[], by simp [deepcopyN]⟩
    refine ⟨hN, ?_⟩
    intro s l
    cases l with
    | nil => exact ⟨[], by simp [deepcopyL]⟩
    | cons c rest => exact ⟨[], by simp [deepcopyL, deepcopyN]⟩
  | succ fuel ih =>
    have hN : ∀ (s : Store) (i : ℕ), ∃ t, (deepcopyN (fuel + 1) s i).1 = s ++ t := by
      intro s i
      cases hs : s[i]? with
      | none => exact ⟨[], by simp [deepcopyN, hs]⟩
      | some e =>
        cases hL : deepcopyL fuel s e.children with
        | mk s1 okids =>
          have ht := ih.2 s e.children
          rw [hL] at ht
          obtain ⟨t, ht⟩ := ht
          simp only at ht
          cases okids with
          | none => exact ⟨t, by simp [deepcopyN, hs, hL, ht]⟩
          | some kids =>
            refine ⟨t ++ [{ tag := e.tag, attrib := e.attrib, children := kids }], ?_⟩
            simp [deepcopyN, hs, hL, ht]
    refine ⟨hN, ?_⟩
    intro s l
    induction l generalizing s with
    | nil => exact ⟨[], by simp [deepcopyL]⟩
    | cons c rest ihl =>
      cases hNc : deepcopyN (fuel + 1) s c with
      | mk s1 ores =>
        have ht1 := hN s c
        rw [hNc] at ht1
        obtain ⟨t1, ht1⟩ := ht1
        simp only at ht1
        cases ores with
        | none => exact ⟨t1, by simp [deepcopyL, hNc, ht1]⟩
        | some n =>
          obtain ⟨t2, ht2⟩ := ihl s1
          cases hLr : deepcopyL (fuel + 1) s1 rest with
          | mk s2 ons =>
            rw [hLr] at ht2
            simp only at ht2
            subst ht1
            cases ons with
            | none =>
              refine ⟨t1 ++ t2, ?_⟩
              simp [deepcopyL, hNc, hLr, ht2]
            | some ns =>
              refine ⟨t1 ++ t2, ?_⟩
              simp [deepcopyL, hNc, hLr, ht2]

lemma fresh_append (fuel : ℕ) :
    (∀ (s t : Store) (L i : ℕ), freshN fuel s L i → freshN fuel (s ++ t) L i) ∧
    (∀ (s t : Store) (L : ℕ) (l : List ℕ),
      freshL fuel s L l → freshL fuel (s ++ t) L l) := by
  induction fuel with
  | zero =>
    have hN : ∀ (s t : Store) (L i : ℕ), freshN 0 s L i → freshN 0 (s ++ t) L i := by
      intro s t L i _
      simp [freshN]
    refine ⟨hN, ?_⟩
    intro s t L l h
    induction l with
    | nil => simp [freshL]
    | cons c rest ihl =>
      simp only [freshL] at h ⊢
      exact ⟨hN s t L c h.1, ihl h.2⟩
  | succ fuel ih =>
    have hN : ∀ (s t : Store) (L i : ℕ),
        freshN (fuel + 1) s L i → freshN (fuel + 1) (s ++ t) L i := by
      intro s t L i h
      cases hs : s.get? i with
      | none => simp only [freshN, hs] at h
      | some e =>
        simp only [freshN, hs] at h
        simp only [freshN, get?_of_append_of_some (t := t) hs]
        exact ⟨h.1, ih.2 s t L e.children h.2⟩
    refine ⟨hN, ?_⟩
    intro s t L l h
    induction l with
    | nil => simp [freshL]
    | cons c rest ihl =>
      simp only [freshL] at h ⊢
      exact ⟨hN s t L c h.1, ihl h.2⟩

lemma fresh_weaken (fuel : ℕ) :
    (∀ (s : Store) (L L2 i : ℕ), L2 ≤ L → freshN fuel s L i → freshN fuel s L2 i) ∧
    (∀ (s : Store) (L L2 : ℕ) (l : List ℕ), L2 ≤ L →
      freshL fuel s L l → freshL fuel s L2 l) := by
  induction fuel with
  | zero =>
    have hN : ∀ (s : Store) (L L2 i : ℕ), L2 ≤ L → freshN 0 s L i → freshN 0 s L2 i := by
      intro s L L2 i _ _
      simp [freshN]
    refine ⟨hN, ?_⟩
    intro s L L2 l hle h
    induction l with
    | nil => simp [freshL]
    | cons c rest ihl =>
      simp only [freshL] at h ⊢
      exact ⟨hN s L L2 c hle h.1, ihl h.2⟩
  | succ fuel ih =>
    have hN : ∀ (s : Store) (L L2 i : ℕ), L2 ≤ L →
        freshN (fuel + 1) s L i → freshN (fuel + 1) s L2 i := by
      intro s L L2 i hle h
      cases hs : s.get? i with
      | none => simp only [freshN, hs] at h
      | some e =>
        simp only [freshN, hs] at h ⊢
        exact ⟨le_trans hle h.1, ih.2 s L L2 e.children hle h.2⟩
    refine ⟨hN, ?_⟩
    intro s L L2 l hle h
    induction l with
    | nil => simp [freshL]
    | cons c rest ihl =>
      simp only [freshL] at h ⊢
      exact ⟨hN s L L2 c hle h.1, ihl h.2⟩

lemma fresh_congr (fuel : ℕ) :
    (∀ (s s2 : Store) (L i : ℕ),
      (∀ idx, (s2.get? idx).map HElem.children = (s.get? idx).map HElem.children) →
      freshN fuel s L i → freshN fuel s2 L i) ∧
    (∀ (s s2 : Store) (L : ℕ) (l : List ℕ),
      (∀ idx, (s2.get? idx).map HElem.children = (s.get? idx).map HElem.children) →
      freshL fuel s L l → freshL fuel s2 L l) := by
  induction fuel with
  | zero =>
    have hN : ∀ (s s2 : Store) (L i : ℕ),
        (∀ idx, (s2.get? idx).map HElem.children = (s.get? idx).map HElem.children) →
        freshN 0 s L i → freshN 0 s2 L i := by
      intro s s2 L i _ _
      simp [freshN]
    refine ⟨hN, ?_⟩
    intro s s2 L l hag h
    induction l with
    | nil => simp [freshL]
    | cons c rest ihl =>
      simp only [freshL] at h ⊢
      exact ⟨hN s s2 L c hag h.1, ihl h.2⟩
  | succ fuel ih =>
    have hN : ∀ (s s2 : Store) (L i : ℕ),
        (∀ idx, (s2.get? idx).map HElem.children = (s.get? idx).map HElem.children) →
        freshN (fuel + 1) s L i → freshN (fuel + 1) s2 L i := by
      intro s s2 L i hag h
      cases hs : s.get? i with
      | none => simp only [freshN, hs] at h
      | some e =>
        simp only [freshN, hs] at h
        have hmap := hag i
        rw [hs] at hmap
        obtain ⟨e2, hs2, hch⟩ := Option.map_eq_some'.mp hmap
        simp only [freshN, hs2]
        rw [hch]
        exact ⟨h.1, ih.2 s s2 L e.children hag h.2⟩
    refine ⟨hN, ?_⟩
    intro s s2 L l hag h
    induction l with
    | nil => simp [freshL]
    | cons c rest ihl =>
      simp only [freshL] at h ⊢
      exact ⟨hN s s2 L c hag h.1, ihl h.2⟩

lemma fresh_set_low (fuel : ℕ) :
    (∀ (s : Store) (L i j : ℕ) (e2 : HElem), j < L →
      freshN fuel s L i → freshN fuel (s.set j e2) L i) ∧
    (∀ (s : Store) (L : ℕ) (l : List ℕ) (j : ℕ) (e2 : HElem), j < L →
      freshL fuel s L l → freshL fuel (s.set j e2) L l) := by
  induction fuel with
  | zero =>
    have hN : ∀ (s : Store) (L i j : ℕ) (e2 : HElem), j < L →
        freshN 0 s L i → freshN 0 (s.set j e2) L i := by
      intro s L i j e2 _ _
      simp [freshN]
    refine ⟨hN, ?_⟩
    intro s L l j e2 hj h
    induction l with
    | nil => simp [freshL]
    | cons c rest ihl =>
      simp only [freshL] at h ⊢
      exact ⟨hN s L c j e2 hj h.1, ihl h.2⟩
  | succ fuel ih =>
    have hN : ∀ (s : Store) (L i j : ℕ) (e2 : HElem), j < L →
        freshN (fuel + 1) s L i → freshN (fuel + 1) (s.set j e2) L i := by
      intro s L i j e2 hj h
      cases hs : s.get? i with
      | none => simp only [freshN, hs] at h
      | some e =>
        simp only [freshN, hs] at h
        have hne : j ≠ i := Nat.ne_of_lt (lt_of_lt_of_le hj h.1)
        simp only [freshN, List.get?_set_ne e2 s hne, hs]
        exact ⟨h.1, ih.2 s L e.children j e2 hj h.2⟩
    refine ⟨hN, ?_⟩
    intro s L l j e2 hj h
    induction l with
    | nil => simp [freshL]
    | cons c rest ihl =>
      simp only [freshL] at h ⊢
      exact ⟨hN s L c j e2 hj h.1, ihl h.2⟩

lemma fresh_fuel_mono (f2 : ℕ) :
    ∀ fuel, f2 ≤ fuel →
      (∀ (s : Store) (L i : ℕ), freshN fuel s L i → freshN f2 s L i) ∧
      (∀ (s : Store) (L : ℕ) (l : List ℕ), freshL fuel s L l → freshL f2 s L l) := by
  induction f2 with
  | zero =>
    intro fuel _
    have hN : ∀ (s : Store) (L i : ℕ), freshN fuel s L i → freshN 0 s L i := by
      intro s L i _
      simp [freshN]
    refine ⟨hN, ?_⟩
    intro s L l h
    induction l with
    | nil => simp [freshL]
    | cons c rest ihl =>
      simp only [freshL] at h ⊢
      exact ⟨hN s L c h.1, ihl h.2⟩
  | succ f2 ihf =>
    intro fuel hle
    cases fuel with
    | zero => exact absurd hle (by omega)
    | succ fuel =>
      have hf2 : f2 ≤ fuel := Nat.le_of_succ_le_succ hle
      have hN : ∀ (s : Store) (L i : ℕ),
          freshN (fuel + 1) s L i → freshN (f2 + 1) s L i := by
        intro s L i h
        cases hs : s.get? i with
        | none => simp only [freshN, hs] at h
        | some e =>
          simp only [freshN, hs] at h ⊢
          exact ⟨h.1, (ihf fuel hf2).2 s L e.children h.2⟩
      refine ⟨hN, ?_⟩
      intro s L l h
      induction l with
      | nil => simp [freshL]
      | cons c rest ihl =>
        simp only [freshL] at h ⊢
        exact ⟨hN s L c h.1, ihl h.2⟩

lemma view_set_low (fuel : ℕ) :
    (∀ (s : Store) (L i j : ℕ) (e2 : HElem), j < L → freshN fuel s L i →
      viewN fuel (s.set j e2) i = viewN fuel s i) ∧
    (∀ (s : Store) (L : ℕ) (l : List ℕ) (j : ℕ) (e2 : HElem), j < L →
      freshL fuel s L l → viewL fuel (s.set j e2) l = viewL fuel s l) := by
  induction fuel with
  | zero =>
    have hN : ∀ (s : Store) (L i j : ℕ) (e2 : HElem), j < L → freshN 0 s L i →
        viewN 0 (s.set j e2) i = viewN 0 s i := by
      intro s L i j e2 _ _
      simp [viewN]
    refine ⟨hN, ?_⟩
    intro s L l j e2 hj h
    induction l with
    | nil => simp [viewL]
    | cons c rest ihl =>
      simp only [freshL] at h
      simp only [viewL, viewN]
      exact ihl h.2
  | succ fuel ih =>
    have hN : ∀ (s : Store) (L i j : ℕ) (e2 : HElem), j < L → freshN (fuel + 1) s L i →
        viewN (fuel + 1) (s.set j e2) i = viewN (fuel + 1) s i := by
      intro s L i j e2 hj h
      cases hs : s.get? i with
      | none => simp only [freshN, hs] at h
      | some e =>
        simp only [freshN, hs] at h
        have hne : j ≠ i := Nat.ne_of_lt (lt_of_lt_of_le hj h.1)
        simp only [viewN, List.get?_set_ne e2 s hne, hs]
        rw [ih.2 s L e.children j e2 hj h.2]
    refine ⟨hN, ?_⟩
    intro s L l j e2 hj h
    induction l with
    | nil => simp [viewL]
    | cons c rest ihl =>
      simp only [freshL] at h
      simp only [viewL]
      rw [hN s L c j e2 hj h.1, ihl h.2]

lemma deepcopy_fresh (fuel : ℕ) :
    (∀ (s : Store) (i : ℕ) (s2 : Store) (n : ℕ),
      deepcopyN fuel s i = (s2, some n) →
        s.length ≤ n ∧ freshN fuel s2 s.length n) ∧
    (∀ (s : Store) (l : List ℕ) (s2 : Store) (ns : List ℕ),
      deepcopyL fuel s l = (s2, some ns) → freshL fuel s2 s.length ns) := by
  induction fuel with
  | zero =>
    have hN : ∀ (s : Store) (i : ℕ) (s2 : Store) (n : ℕ),
        deepcopyN 0 s i = (s2, some n) →
          s.length ≤ n ∧ freshN 0 s2 s.length n := by
      intro s i s2 n h
      exact absurd h (by simp [deepcopyN])
    refine ⟨hN, ?_⟩
    intro s l s2 ns h
    cases l with
    | nil =>
      simp only [deepcopyL, Prod.mk.injEq, Option.some.injEq] at h
      rw [← h.2]
      simp [freshL]
    | cons c rest => exact absurd h (by simp [deepcopyL, deepcopyN])
  | succ fuel ih =>
    have hN : ∀ (s : Store) (i : ℕ) (s2 : Store) (n : ℕ),
        deepcopyN (fuel + 1) s i = (s2, some n) →
          s.length ≤ n ∧ freshN (fuel + 1) s2 s.length n := by
      intro s i s2 n h
      cases hs : s.get? i with
      | none =>
        simp only [deepcopyN, hs] at h
        exact absurd h (by simp)
      | some e =>
        simp only [deepcopyN, hs] at h
        cases hL : deepcopyL fuel s e.children with
        | mk s1 okids =>
          rw [hL] at h
          cases okids with
          | none => simp at h
          | some kids =>
            simp only [Prod.mk.injEq, Option.some.injEq] at h
            obtain ⟨hs2, hn⟩ := h
            subst hs2
            subst hn
            have hext := (deepcopy_extend fuel).2 s e.children
            rw [hL] at hext
            obtain ⟨t, ht⟩ := hext
            simp only at ht
            subst ht
            constructor
            · simp
            · simp only [freshN, List.get?_concat_length]
              refine ⟨by simp, ?_⟩
              have hfr := ih.2 s e.children (s ++ t) kids hL
              exact (fresh_append fuel).2 (s ++ t) _ s.length kids hfr
    refine ⟨hN, ?_⟩
    intro s l
    induction l generalizing s with
    | nil =>
      intro s2 ns h
      simp only [deepcopyL, Prod.mk.injEq, Option.some.injEq] at h
      rw [← h.2]
      simp [freshL]
    | cons c rest ihl =>
      intro s2 ns h
      rw [deepcopyL] at h
      cases hNc : deepcopyN (fuel + 1) s c with
      | mk s1 ores =>
        simp only [hNc] at h
        cases ores with
        | none => simp at h
        | some n =>
          cases hLr : deepcopyL (fuel + 1) s1 rest with
          | mk s2b ons =>
            simp only [hLr] at h
            cases ons with
            | none => simp at h
            | some ns2 =>
              simp only [Prod.mk.injEq, Option.some.injEq] at h
              obtain ⟨hs2, hns⟩ := h
              subst hs2
              subst hns
              obtain ⟨hn1, hfr1⟩ := hN s c s1 n hNc
              have hfr2 := ihl s1 s2b ns2 hLr
              have hext1 := (deepcopy_extend (fuel + 1)).1 s c
              rw [hNc] at hext1
              obtain ⟨t1, ht1⟩ := hext1
              simp only at ht1
              have hext2 := (deepcopy_extend (fuel + 1)).2 s1 rest
              rw [hLr] at hext2
              obtain ⟨t2, ht2⟩ := hext2
              simp only at ht2
              simp only [freshL]
              constructor
              · rw [ht2]
                exact (fresh_append (fuel + 1)).1 s1 t2 s.length n hfr1
              · refine (fresh_weaken (fuel + 1)).2 s2b s1.length s.length ns2 ?_ hfr2
                rw [ht1]
                simp

lemma hSetAttr_get_ne (s : Store) (g i : ℕ) (k : String) (v : AVal)
    (hne : i ≠ g) : (hSetAttr s g k v).get? i = s.get? i := by
  cases hg : s.get? g with
  | none => simp only [hSetAttr, hg]
  | some e =>
    simp only [hSetAttr, hg]
    exact List.get?_set_ne _ s (fun h => hne h.symm)

lemma hSetAttr_children_agree (s : Store) (g : ℕ) (k : String) (v : AVal)
    (idx : ℕ) :
    ((hSetAttr s g k v).get? idx).map HElem.children
      = (s.get? idx).map HElem.children := by
  cases hg : s.get? g with
  | none => simp only [hSetAttr, hg]
  | some e =>
    simp only [hSetAttr, hg]
    by_cases hidx : idx = g
    · subst hidx
      obtain ⟨hlt, _⟩ := List.get?_eq_some.mp hg
      rw [List.get?_set_eq_of_lt _ hlt, hg]
      rfl
    · rw [List.get?_set_ne _ s (fun h => hidx h.symm)]

lemma hSetAttr_length (s : Store) (g : ℕ) (k : String) (v : AVal) :
    (hSetAttr s g k v).length = s.length := by
  cases hg : s.get? g with
  | none => simp only [hSetAttr, hg]
  | some e => simp only [hSetAttr, hg, List.length_set]

lemma foldSet_get_ne (sets : List (String × AVal)) (g i : ℕ) (hne : i ≠ g) :
    ∀ st : Store,
      (sets.foldl (fun st kv => hSetAttr st g kv.1 kv.2) st).get? i = st.get? i := by
  induction sets with
  | nil => intro st; rfl
  | cons kv rest ih =>
    intro st
    rw [List.foldl_cons, ih, hSetAttr_get_ne st g i kv.1 kv.2 hne]

lemma foldSet_children_agree (sets : List (String × AVal)) (g : ℕ) :
    ∀ (st : Store) (idx : ℕ),
      ((sets.foldl (fun st kv => hSetAttr st g kv.1 kv.2) st).get? idx).map HElem.children
        = (st.get? idx).map HElem.children := by
  induction sets with
  | nil => intro st idx; rfl
  | cons kv rest ih =>
    intro st idx
    rw [List.foldl_cons, ih, hSetAttr_children_agree]

lemma hAppendChild_get_ne (s : Store) (rt c i : ℕ) (hne : i ≠ rt) :
    (hAppendChild s rt c).get? i = s.get? i := by
  cases hg : s.get? rt with
  | none => simp only [hAppendChild, hg]
  | some e =>
    simp only [hAppendChild, hg]
    exact List.get?_set_ne _ s (fun h => hne h.symm)

lemma hAppendChild_get_self (s : Store) (rt c : ℕ) (e : HElem)
    (hr : s.get? rt = some e) :
    (hAppendChild s rt c).get? rt
      = some { e with children := e.children ++ [c] } := by
  simp only [hAppendChild, hr]
  obtain ⟨hlt, _⟩ := List.get?_eq_some.mp hr
  exact List.get?_set_eq_of_lt _ hlt

lemma fresh_hAppendChild (fuel : ℕ) (s : Store) (L rt c i : ℕ) (hrt : rt < L)
    (h : freshN fuel s L i) : freshN fuel (hAppendChild s rt c) L i := by
  cases hg : s.get? rt with
  | none =>
    simp only [hAppendChild, hg]
    exact h
  | some e =>
    simp only [hAppendChild, hg]
    exact (fresh_set_low fuel).1 s L i rt _ hrt h

lemma fresh_foldSet (fuel : ℕ) (sets : List (String × AVal)) (g : ℕ) (st : Store)
    (L i : ℕ) (h : freshN fuel st L i) :
    freshN fuel (sets.foldl (fun st kv => hSetAttr st g kv.1 kv.2) st) L i :=
  (fresh_congr fuel).1 st _ L i (fun idx => foldSet_children_agree sets g st idx) h

/-- C8: a successful add_graphic call appends a deep copy of the passed
drawable: the copy identity is fresh, so the x, y, width and height
attributes were set only on the copy; every pre-existing heap cell except
the canvas root is untouched by the call (the caller's original element in
particular); the root gains exactly one child identity; and overwriting
any pre-existing cell afterwards, such as mutating the caller's original
element, does not change the tree held by the canvas. -/
theorem add_graphic_deepcopy_frame (fuel : ℕ) (s : Store) (root svgId : ℕ)
    (x y : ℚ) (width height : Option ℚ) (s2 : Store) (g : ℕ)
    (hroot : root < s.length)
    (hcall : addGraphicH fuel s root svgId x y width height = (none, s2, some g)) :
    s.length ≤ g ∧
    (∀ i, i < s.length → i ≠ root → s2.get? i = s.get? i) ∧
    (s2.get? root
      = (s.get? root).map (fun e => { e with children := e.children ++ [g] })) ∧
    (∀ j, j < s.length → ∀ (e2 : HElem) (f2 : ℕ), f2 ≤ fuel →
      viewN f2 (s2.set j e2) g = viewN f2 s2 g) := by
  cases hsv : s.get? svgId with
  | none =>
    simp only [addGraphicH, hsv] at hcall
    exact absurd hcall (by simp)
  | some e =>
    simp only [addGraphicH, hsv] at hcall
    split at hcall
    · exact absurd hcall (by simp)
    · cases hcp : deepcopyN fuel s svgId with
      | mk s1 og =>
        simp only [hcp] at hcall
        cases og with
        | none => exact absurd hcall (by simp)
        | some g0 =>
          cases hd : dimAttrs e.attrib x y width height with
          | error err =>
            simp only [hd] at hcall
            exact absurd hcall (by simp)
          | ok sets =>
            simp only [hd, Prod.mk.injEq, Option.some.injEq] at hcall
            obtain ⟨hs2, hg0⟩ := hcall.2
            rw [hg0] at hs2 hcp
            subst hs2
            obtain ⟨hglen, hfr1⟩ := (deepcopy_fresh fuel).1 s svgId s1 g hcp
            have hext := (deepcopy_extend fuel).1 s svgId
            rw [hcp] at hext
            obtain ⟨t1, ht1⟩ := hext
            simp only at ht1
            subst ht1
            have hfr2 : freshN fuel
                (sets.foldl (fun st kv => hSetAttr st g kv.1 kv.2) (s ++ t1))
                s.length g :=
              fresh_foldSet fuel sets g (s ++ t1) s.length g hfr1
            have hfr3 : freshN fuel
                (hAppendChild
                  (sets.foldl (fun st kv => hSetAttr st g kv.1 kv.2) (s ++ t1)) root g)
                s.length g :=
              fresh_hAppendChild fuel _ s.length root g g hroot hfr2
            refine ⟨hglen, ?_, ?_, ?_⟩
            · intro i hi hir
              rw [hAppendChild_get_ne _ root g i hir,
                foldSet_get_ne sets g i (Nat.ne_of_lt (lt_of_lt_of_le hi hglen)) _,
                List.get?_append hi]
            · have hr1 : (s ++ t1).get? root = s.get? root := List.get?_append hroot
              have hrf : (sets.foldl (fun st kv => hSetAttr st g kv.1 kv.2)
                  (s ++ t1)).get? root = s.get? root := by
                rw [foldSet_get_ne sets g root
                  (Nat.ne_of_lt (lt_of_lt_of_le hroot hglen)) _, hr1]
              obtain ⟨er, her⟩ : ∃ er, s.get? root = some er := by
                have := List.get?_eq_get hroot
                exact ⟨_, this⟩
              rw [hAppendChild_get_self _ root g er (by rw [hrf, her]), her]
              rfl
            · intro j hj e2 f2 hf2
              have hfrf2 : freshN f2
                  (hAppendChild
                    (sets.foldl (fun st kv => hSetAttr st g kv.1 kv.2) (s ++ t1)) root g)
                  s.length g :=
                (fresh_fuel_mono f2 fuel hf2).1 _ s.length g hfr3
              exact (view_set_low f2).1 _ s.length g j e2 hj hfrf2

/-- Concrete heap: cell 0 is the canvas root, cell 1 the caller's element. -/
def sEx : Store :=
  [⟨"svg", [], []⟩,
   ⟨"svg", [("viewBox", .str "0 0 10 10"), ("fill", .str "red")], []⟩]

/-- Expected heap after the concrete add_graphic call on sEx: the root
gained child 2, cell 1 is untouched, and cell 2 is the copy with x and y
set. -/
def s1Ex : Store :=
  [⟨"svg", [], [2]⟩,
   ⟨"svg", [("viewBox", .str "0 0 10 10"), ("fill", .str "red")], []⟩,
   ⟨"svg", [("viewBox", .str "0 0 10 10"), ("fill", .str "red"),
            ("x", .num 0), ("y", .num 0)], []⟩]

lemma addGraphicH_sEx :
    addGraphicH 5 sEx 0 1 0 0 none none = (none, s1Ex, some 2) := by
  simp [addGraphicH, sEx, s1Ex, deepcopyN, deepcopyL, dimAttrs, hSetAttr,
    hAppendChild, dictSet, List.lookup]

/-- C8 witness: the theorem applied at the concrete heap sEx: the copy
gets the fresh identity 2, the caller's cell 1 is untouched by the call,
and overwriting cell 1 afterwards leaves the view of the copy unchanged. -/
theorem add_graphic_deepcopy_frame_witness :
    0 < sEx.length ∧
      addGraphicH 5 sEx 0 1 0 0 none none = (none, s1Ex, some 2) ∧
      sEx.length ≤ 2 ∧
      s1Ex.get? 1 = sEx.get? 1 ∧
      viewN 3 (s1Ex.set 1 ⟨"svg", [], []⟩) 2 = viewN 3 s1Ex 2 := by
  have h := add_graphic_deepcopy_frame 5 sEx 0 1 0 0 none none s1Ex 2
    (by decide) addGraphicH_sEx
  exact ⟨by decide, addGraphicH_sEx, h.1, h.2.1 1 (by decide) (by decide),
    h.2.2.2 1 (by decide) ⟨"svg", [], []⟩ 3 (by decide)⟩
